import Mathlib

/-!
The class `SmartTV::Application` of `src/application.cpp`.

A shallow embedding of `ApplicationPrivate` and of the public accessors of
`Application`, followed by theorems about manifest loading, link selection,
icon resolution, the QML context and the lazily built QML components.

Conventions of the embedding

* `QString` is `String`, `QChar` is `Char`; `int` is `Int` (no arithmetic is done
  on it, only comparisons).
* `QVariant` is an inductive type with the value kinds a JSON document can
  produce plus the default constructed (invalid) variant.
* `QVariantMap` (`QMap<QString, QVariant>`) is an association list read with
  first match.  The source reads it with the non-const `operator[]`
  (`appInfoMap` is a non-const member used in a non-const member function), which
  inserts a default constructed value under a key that is absent; `subscript`
  embeds that operator and returns the updated map next to the value.
* Objects created with `new` live in a `Heap`; a pointer is `Option Nat`
  (`none` is `nullptr`, `some i` is the `i`-th object allocated of that class).
* What the file takes from outside (Qt, `Settings`, `ThemeManager`, the build
  mode) is a field of `Platform`; the file system is a function from paths to
  the bytes of the files that can be opened for reading.
* `qFatal`, a failing `Q_ASSERT` and undefined behaviour are results of
  `Outcome`.  `qFatal` takes a printf format: the message of line 104 is handed
  to it as the format, with no argument, so `qFatal` embeds the reading of that
  format.
-/

namespace SmartTV

/-! ## Qt value types -/

/-- The `QVariant` values reachable from `QJsonObject::toVariantMap()`, and the
default constructed variant `invalid`. -/
inductive QVariant where
  | invalid
  | null
  | bool (b : Bool)
  | double (d : ℚ)
  | string (s : String)
  | list (xs : List QVariant)
  | map (m : List (String × QVariant))

abbrev QVariantList := List QVariant

abbrev QVariantMap := List (String × QVariant)

abbrev QByteArray := List Nat

/-- The result of `QJsonDocument::fromJson`: the null document (empty or
malformed input), an array document or an object document.  Values are given
already converted by `toVariant`. -/
inductive QJsonDocument where
  | null
  | array (a : QVariantList)
  | object (o : QVariantMap)

/-- The chain `QJsonDocument::object().toVariantMap()`: the object of an object
document, the empty map for every other document. -/
def QJsonDocument.objectMap : QJsonDocument → QVariantMap
  | .object o => o
  | _ => []

/-- What the translation unit takes from its collaborators. -/
structure Platform where
  /-- The character `QDir::separator()`. -/
  separator : Char
  /-- The directory `Settings::instance()->appsDir()`. -/
  appsDir : String
  /-- The address `ThemeManager::instance()->view()->engine()`. -/
  engine : Nat
  /-- The parser `QJsonDocument::fromJson`. -/
  fromJson : QByteArray → QJsonDocument
  /-- The conversion `QVariant(double).toString()`. -/
  numberToString : ℚ → String
  /-- Whether `Q_ASSERT` is compiled in (`QT_NO_DEBUG` is not defined). -/
  debug : Bool

/-- Paths whose `QFile::open(QFile::ReadOnly)` succeeds, with `readAll()`. -/
abbrev FileSystem := String → Option QByteArray

/-- The conversion `QVariant::toString()`: the string itself, the text of a
boolean or of a number, the empty string for every other kind. -/
def QVariant.toString (P : Platform) : QVariant → String
  | .bool true => "true"
  | .bool false => "false"
  | .double d => P.numberToString d
  | .string s => s
  | _ => ""

/-- The conversion `QVariant::toList()`: the list itself, the empty list for
every other kind. -/
def QVariant.toList : QVariant → QVariantList
  | .list xs => xs
  | _ => []

/-- The conversion `QVariant::toMap()`: the map itself, the empty map for every
other kind. -/
def QVariant.toMap : QVariant → QVariantMap
  | .map m => m
  | _ => []

/-- The method `QMap::contains`. -/
def QVariantMap.contains (m : QVariantMap) (key : String) : Bool :=
  List.any m (fun e => e.1 == key)

/-- The method `QMap::value`: the value under `key`, a default constructed one when the key
is absent. -/
def QVariantMap.value (m : QVariantMap) (key : String) : QVariant :=
  match List.find? (fun e => e.1 == key) m with
  | some e => e.2
  | none => QVariant.invalid

/-- The non-const `QMap::operator[]`: the value under `key` and the map
afterwards, which has gained `key` with a default constructed value when the key
was absent. -/
def QVariantMap.subscript (m : QVariantMap) (key : String) : QVariant × QVariantMap :=
  if QVariantMap.contains m key then (QVariantMap.value m key, m)
  else (QVariant.invalid, (key, QVariant.invalid) :: m)

/-- Two maps hold the same keys with the same values. -/
def QVariantMap.Same (a b : QVariantMap) : Prop :=
  ∀ key, QVariantMap.contains a key = QVariantMap.contains b key ∧
    QVariantMap.value a key = QVariantMap.value b key

/-! ## QML objects and the heap -/

inductive CompilationMode where
  | PreferSynchronous
  | Asynchronous
  deriving DecidableEq, Repr

/-- A `QQmlComponent` as built by `new QQmlComponent(engine, fileName, mode)`. -/
structure QQmlComponent where
  engine : Nat
  fileName : String
  mode : CompilationMode
  deriving DecidableEq, Repr

/-- A `QQmlContext` as built by `new QQmlContext(engine, parent)`, with the
properties set on it; the newest binding of a name comes first. -/
structure QQmlContext where
  engine : Nat
  properties : List (String × QVariant)

/-- The method `QQmlContext::setContextProperty`: the name is bound to the
value, an older binding of the name is dropped. -/
def QQmlContext.setContextProperty (c : QQmlContext) (name : String) (v : QVariant) :
    QQmlContext :=
  { c with properties := (name, v) :: List.filter (fun e => !(e.1 == name)) c.properties }

/-- The method `QQmlContext::contextProperty` restricted to the properties set on this
context. -/
def QQmlContext.contextProperty (c : QQmlContext) (name : String) : Option QVariant :=
  Option.map Prod.snd (List.find? (fun e => e.1 == name) c.properties)

/-- The objects allocated so far, per class, in allocation order. -/
structure Heap where
  contexts : List QQmlContext
  components : List QQmlComponent

/-- How a call ends. -/
inductive Outcome (α : Type) where
  /-- The call returns. -/
  | ok (a : α)
  /-- The fatal abort of `qFatal`, with the text it printed (its bytes, one
  character per byte). -/
  | fatal (msg : String)
  /-- A `Q_ASSERT` whose condition (given as text) is false, in a debug build. -/
  | assertFailed (cond : String)
  /-- Undefined behaviour: a null pointer dereferenced, a list read out of range,
  or a printf conversion that reads an argument which was not passed. -/
  | undefined

/-- The conversion `QString::toLatin1()`, one character per byte: a character
above U+00FF becomes `?`, and a character outside the basic plane, which a
`QString` holds as two code units, becomes `??`. -/
def toLatin1 : List Char → List Char
  | [] => []
  | c :: cs =>
    if c.toNat < 256 then c :: toLatin1 cs
    else if c.toNat < 65536 then '?' :: toLatin1 cs
    else '?' :: '?' :: toLatin1 cs

/-- The C string a `QByteArray` converts to when it is passed as `const char *`:
the bytes before the first NUL. -/
def cString : List Char → List Char
  | [] => []
  | c :: cs => if c.toNat = 0 then [] else c :: cString cs

/-- The text a printf format prints when no argument is passed; `pending` says
that the character before was an unpaired `%`.  An ordinary character is copied
and `%%` prints `%`.  Every other use of `%` is a conversion specification: it
reads an argument that was not passed or is not a valid specification, and the
result is `none`. -/
def formatNoArgs (pending : Bool) : List Char → Option (List Char)
  | [] => if pending then none else some []
  | c :: cs =>
    if pending then
      if c = '%' then Option.map (List.cons '%') (formatNoArgs false cs) else none
    else if c = '%' then formatNoArgs true cs
    else Option.map (List.cons c) (formatNoArgs false cs)

/-- The call `qFatal(format)` with no further argument, `format` being a
`QByteArray`: a fatal abort with the text printed when the format reads no
argument, undefined behaviour otherwise. -/
def qFatal {α : Type} (format : List Char) : Outcome α :=
  match formatNoArgs false (cString format) with
  | some text => Outcome.fatal (String.mk text)
  | none => Outcome.undefined

/-! ## ApplicationPrivate -/

structure ApplicationPrivate where
  context : Option Nat
  widgetComponent : Option Nat
  contentComponent : Option Nat
  appId : String
  appLinkId : Int
  appIconPath : String
  name : String
  category : String
  widgetFileName : String
  contentFileName : String
  appFolder : String
  appInfoMap : QVariantMap
  links : QVariantList

/-- The constructor `ApplicationPrivate()`: the three pointers are null, the
strings and containers are empty, and `appLinkId` is not initialised
(`indeterminate` stands for whatever the memory holds). -/
def ApplicationPrivate.ctor (indeterminate : Int) : ApplicationPrivate :=
  { context := none, widgetComponent := none, contentComponent := none,
    appId := "", appLinkId := indeterminate, appIconPath := "", name := "",
    category := "", widgetFileName := "", contentFileName := "", appFolder := "",
    appInfoMap := [], links := [] }

/-- The method `ApplicationPrivate::prepareContext` (lines 50 to 57); the parent
object handed to the new context is not modelled. -/
def ApplicationPrivate.prepareContext (P : Platform) (h : Heap) (d : ApplicationPrivate) :
    Heap × ApplicationPrivate :=
  if d.context.isSome then (h, d)
  else
    ({ h with contexts := h.contexts ++ [{ engine := P.engine, properties := [] }] },
     { d with context := some h.contexts.length })

/-- The method `ApplicationPrivate::prepareWidgetComponent` (lines 59 to 66). -/
def ApplicationPrivate.prepareWidgetComponent (P : Platform) (h : Heap)
    (d : ApplicationPrivate) : Heap × ApplicationPrivate :=
  if d.widgetComponent.isSome || d.widgetFileName.isEmpty then (h, d)
  else
    ({ h with components := h.components ++
        [{ engine := P.engine,
           fileName := d.appFolder ++ String.singleton P.separator ++ d.widgetFileName,
           mode := CompilationMode.Asynchronous }] },
     { d with widgetComponent := some h.components.length })

/-- The method `ApplicationPrivate::prepareContentComponent` (lines 68 to 75). -/
def ApplicationPrivate.prepareContentComponent (P : Platform) (h : Heap)
    (d : ApplicationPrivate) : Heap × ApplicationPrivate :=
  if d.contentComponent.isSome then (h, d)
  else
    ({ h with components := h.components ++
        [{ engine := P.engine,
           fileName := d.appFolder ++ String.singleton P.separator ++ d.contentFileName,
           mode := CompilationMode.Asynchronous }] },
     { d with contentComponent := some h.components.length })

/-- Lines 88 to 93 of `load`: for a link, the map of the manifest is replaced by
the map of the entry `appLinkId` of its `"Links"` list. -/
def ApplicationPrivate.selectLink (P : Platform) (d : ApplicationPrivate) :
    Outcome ApplicationPrivate :=
  if 0 ≤ d.appLinkId then
    if P.debug && !QVariantMap.contains d.appInfoMap "Links" then
      Outcome.assertFailed "appInfoMap.contains(\"Links\")"
    else
      let r := QVariantMap.subscript d.appInfoMap "Links"
      let d := { d with appInfoMap := r.2 }
      let links := QVariant.toList r.1
      if P.debug && !decide ((links.length : Int) > d.appLinkId) then
        Outcome.assertFailed "links.count() > appLinkId"
      else
        match links.get? d.appLinkId.toNat with
        | none => Outcome.undefined
        | some entry => Outcome.ok { d with appInfoMap := QVariant.toMap entry }
  else Outcome.ok d

/-- Lines 95 to 102 of `load`: icon, links, name and content file name are read
from the map in use. -/
def ApplicationPrivate.readEntry (P : Platform) (d : ApplicationPrivate) :
    ApplicationPrivate :=
  let r := QVariantMap.subscript d.appInfoMap "Icon"
  let d : ApplicationPrivate := { d with appInfoMap := r.2 }
  let d : ApplicationPrivate :=
    if !(QVariant.toString P r.1).isEmpty then
      let r := QVariantMap.subscript d.appInfoMap "Icon"
      { d with
        appInfoMap := r.2
        appIconPath := d.appFolder ++ String.singleton P.separator ++ QVariant.toString P r.1 }
    else d
  let d : ApplicationPrivate :=
    if QVariantMap.contains d.appInfoMap "Links" then
      let r := QVariantMap.subscript d.appInfoMap "Links"
      { d with appInfoMap := r.2, links := QVariant.toList r.1 }
    else d
  let r := QVariantMap.subscript d.appInfoMap "Name"
  let d : ApplicationPrivate := { d with appInfoMap := r.2, name := QVariant.toString P r.1 }
  if 0 ≤ d.appLinkId then
    let r := QVariantMap.subscript d.appInfoMap "Content"
    { d with appInfoMap := r.2, contentFileName := QVariant.toString P r.1 }
  else { d with contentFileName := "main.qml" }

/-- The method `ApplicationPrivate::load` (lines 77 to 109).  Lines 88 to 93 and
95 to 102 are `selectLink` and `readEntry`; line 104 hands the message, converted
with `toLatin1()`, to `qFatal` as its format and passes no argument; the `qDebug`
output of line 108 is not modelled. -/
def ApplicationPrivate.load (P : Platform) (fs : FileSystem) (h : Heap)
    (d : ApplicationPrivate) (identifier : String) : Outcome (Heap × ApplicationPrivate) :=
  let d := { d with appFolder := P.appsDir ++ String.singleton P.separator ++ identifier }
  let appInfoFilePath := d.appFolder ++ String.singleton P.separator ++ "appinfo.json"
  match fs appInfoFilePath with
  | some bytes =>
    let d := { d with appId := identifier }
    let d := { d with appInfoMap := QJsonDocument.objectMap (P.fromJson bytes) }
    let r := QVariantMap.subscript d.appInfoMap "Category"
    let d := { d with appInfoMap := r.2, category := QVariant.toString P r.1 }
    let r := QVariantMap.subscript d.appInfoMap "Widget"
    let d := { d with appInfoMap := r.2, widgetFileName := QVariant.toString P r.1 }
    match ApplicationPrivate.selectLink P d with
    | Outcome.ok d =>
      let d := ApplicationPrivate.readEntry P d
      match d.context with
      | none => Outcome.undefined
      | some c =>
        match h.contexts.get? c with
        | none => Outcome.undefined
        | some ctx =>
          let ctx := QQmlContext.setContextProperty ctx "context_AppId" (QVariant.string identifier)
          let ctx := QQmlContext.setContextProperty ctx "context_AppPath" (QVariant.string d.appFolder)
          Outcome.ok ({ h with contexts := h.contexts.set c ctx }, d)
    | Outcome.fatal msg => Outcome.fatal msg
    | Outcome.assertFailed cond => Outcome.assertFailed cond
    | Outcome.undefined => Outcome.undefined
  | none => qFatal (toLatin1 ("Could not load Application Info for:" ++ identifier).toList)

/-! ## Application -/

/-- The constructor `Application::Application(identifier, linkId, parent)`
(lines 131 to 138); the back pointer `q_ptr` and the parent are not modelled. -/
def Application.ctor (P : Platform) (fs : FileSystem) (h : Heap) (indeterminate : Int)
    (identifier : String) (linkId : Int) : Outcome (Heap × ApplicationPrivate) :=
  let d := ApplicationPrivate.ctor indeterminate
  let d := { d with appLinkId := linkId }
  let r := ApplicationPrivate.prepareContext P h d
  ApplicationPrivate.load P fs r.1 r.2 identifier

def Application.id (d : ApplicationPrivate) : String := d.appId

def Application.category (d : ApplicationPrivate) : String := d.category

def Application.name (d : ApplicationPrivate) : String := d.name

def Application.links (d : ApplicationPrivate) : QVariantList := d.links

def Application.toVariantMap (d : ApplicationPrivate) : QVariantMap := d.appInfoMap

def Application.icon (d : ApplicationPrivate) : String := d.appIconPath

def Application.context (d : ApplicationPrivate) : Option Nat := d.context

/-- The method `Application::contentComponent`: the pointer returned, and the heap and the
object afterwards. -/
def Application.contentComponent (P : Platform) (h : Heap) (d : ApplicationPrivate) :
    Option Nat × Heap × ApplicationPrivate :=
  let r := if !d.contentComponent.isSome then ApplicationPrivate.prepareContentComponent P h d
           else (h, d)
  (r.2.contentComponent, r.1, r.2)

/-- The method `Application::widgetComponent`: the pointer returned, and the heap and the
object afterwards. -/
def Application.widgetComponent (P : Platform) (h : Heap) (d : ApplicationPrivate) :
    Option Nat × Heap × ApplicationPrivate :=
  let r := if !d.widgetComponent.isSome then ApplicationPrivate.prepareWidgetComponent P h d
           else (h, d)
  (r.2.widgetComponent, r.1, r.2)

/-! ## Vocabulary of the statements -/

/-- The application folder of `identifier`: `appsDir + separator + identifier`. -/
def appFolderOf (P : Platform) (identifier : String) : String :=
  P.appsDir ++ String.singleton P.separator ++ identifier

/-- The path of the manifest of `identifier`:
`appsDir + separator + identifier + separator + "appinfo.json"`. -/
def manifestPath (P : Platform) (identifier : String) : String :=
  P.appsDir ++ String.singleton P.separator ++ identifier ++ String.singleton P.separator ++
    "appinfo.json"

/-- The C string line 104 hands to `qFatal` as its format:
`("Could not load Application Info for:" + identifier).toLatin1()`. -/
def fatalFormat (identifier : String) : List Char :=
  cString (toLatin1 ("Could not load Application Info for:" ++ identifier).toList)

/-- The manifest object read from the bytes of the manifest file. -/
def manifestOf (P : Platform) (bytes : QByteArray) : QVariantMap :=
  QJsonDocument.objectMap (P.fromJson bytes)

/-- The list under `"Links"` of a manifest entry. -/
def linksOf (m : QVariantMap) : QVariantList :=
  QVariant.toList (QVariantMap.value m "Links")

/-- The manifest entry in use: the manifest itself when `linkId < 0`, the entry
`linkId` of its `"Links"` list (read as a map) otherwise. -/
def entryInUse (m : QVariantMap) (linkId : Int) : QVariantMap :=
  if 0 ≤ linkId then
    QVariant.toMap ((linksOf m).getD linkId.toNat QVariant.invalid)
  else m

/-- The heap and object after `n` calls of `Application::contentComponent`, with
the pointers returned, oldest first. -/
def callContent (P : Platform) : Nat → Heap → ApplicationPrivate →
    List (Option Nat) × Heap × ApplicationPrivate
  | 0, h, d => ([], h, d)
  | n + 1, h, d =>
    let r := Application.contentComponent P h d
    let s := callContent P n r.2.1 r.2.2
    (r.1 :: s.1, s.2)

/-- The heap and object after `n` calls of `Application::widgetComponent`, with
the pointers returned, oldest first. -/
def callWidget (P : Platform) : Nat → Heap → ApplicationPrivate →
    List (Option Nat) × Heap × ApplicationPrivate
  | 0, h, d => ([], h, d)
  | n + 1, h, d =>
    let r := Application.widgetComponent P h d
    let s := callWidget P n r.2.1 r.2.2
    (r.1 :: s.1, s.2)

/-- The object `load` hands to the link selection, for a manifest `m` that was
opened: identifier, folder, category and widget file name are set, the map has
been read under `"Category"` and `"Widget"`. -/
def beforeLink (P : Platform) (h : Heap) (identifier : String) (linkId : Int)
    (m : QVariantMap) : ApplicationPrivate :=
  { context := some h.contexts.length, widgetComponent := none, contentComponent := none,
    appId := identifier, appLinkId := linkId, appIconPath := "", name := "",
    category := QVariant.toString P (QVariantMap.value m "Category"),
    widgetFileName := QVariant.toString P (QVariantMap.value m "Widget"),
    contentFileName := "", appFolder := appFolderOf P identifier,
    appInfoMap := (QVariantMap.subscript (QVariantMap.subscript m "Category").2 "Widget").2,
    links := [] }

/-- The context the constructor leaves behind: created empty, then given the
two context properties. -/
def contextAfter (P : Platform) (identifier : String) : QQmlContext :=
  { engine := P.engine,
    properties := [("context_AppPath", QVariant.string (appFolderOf P identifier)),
                   ("context_AppId", QVariant.string identifier)] }

/-- The heap the constructor leaves behind. -/
def heapAfter (P : Platform) (h : Heap) (identifier : String) : Heap :=
  { h with contexts := h.contexts ++ [contextAfter P identifier] }

/-- What a successful construction from the manifest `m` establishes: `h` is the
heap before, `h1` and `d` are the heap and the object after. -/
structure Loaded (P : Platform) (h : Heap) (identifier : String) (linkId : Int)
    (m : QVariantMap) (h1 : Heap) (d : ApplicationPrivate) : Prop where
  heap : h1 = heapAfter P h identifier
  context : d.context = some h.contexts.length
  widgetComponent : d.widgetComponent = none
  contentComponent : d.contentComponent = none
  appId : d.appId = identifier
  appLinkId : d.appLinkId = linkId
  appFolder : d.appFolder = appFolderOf P identifier
  category : d.category = QVariant.toString P (QVariantMap.value m "Category")
  widgetFileName : d.widgetFileName = QVariant.toString P (QVariantMap.value m "Widget")
  name : d.name = QVariant.toString P (QVariantMap.value (entryInUse m linkId) "Name")
  contentFileName : d.contentFileName =
    if 0 ≤ linkId then QVariant.toString P (QVariantMap.value (entryInUse m linkId) "Content")
    else "main.qml"
  appIconPath : d.appIconPath =
    if QVariant.toString P (QVariantMap.value (entryInUse m linkId) "Icon") = "" then ""
    else appFolderOf P identifier ++ String.singleton P.separator ++
      QVariant.toString P (QVariantMap.value (entryInUse m linkId) "Icon")
  links : d.links = linksOf (entryInUse m linkId)
  value : ∀ key, QVariantMap.value d.appInfoMap key =
    QVariantMap.value (entryInUse m linkId) key
  contains : ∀ key, QVariantMap.contains d.appInfoMap key = true ↔
    (QVariantMap.contains (entryInUse m linkId) key = true ∨ key = "Icon" ∨ key = "Name" ∨
      (0 ≤ linkId ∧ key = "Content") ∨ (linkId < 0 ∧ (key = "Category" ∨ key = "Widget")))
  valid : linkId < 0 ∨ linkId < ((linksOf m).length : Int)

/-! ## Sample data -/

/-- A manifest with a widget, an icon, a content entry and two links; the second
link has a name and a content file and no icon. -/
def sampleManifest : QVariantMap :=
  [("Name", QVariant.string "Video"), ("Category", QVariant.string "Media"),
   ("Widget", QVariant.string "widget.qml"), ("Icon", QVariant.string "icon.png"),
   ("Content", QVariant.string "start.qml"),
   ("Links", QVariant.list
      [QVariant.map [("Name", QVariant.string "Films"), ("Content", QVariant.string "films.qml"),
                     ("Icon", QVariant.string "films.png")],
       QVariant.map [("Name", QVariant.string "Series"),
                     ("Content", QVariant.string "series.qml")]])]

/-- A debug build on a system with `/` as separator; the parser gives the null
document for no bytes, the empty object for the single byte `0` and the sample
manifest for everything else. -/
def samplePlatform : Platform :=
  { separator := '/', appsDir := "/apps", engine := 1,
    fromJson := fun b =>
      if b = [] then QJsonDocument.null
      else if b = [0] then QJsonDocument.object []
      else QJsonDocument.object sampleManifest,
    numberToString := fun _ => "0", debug := true }

/-- A file system with three manifests: `video` (the sample manifest), `bare`
(the empty object) and `blank` (an empty file). -/
def sampleFs : FileSystem := fun path =>
  if path = "/apps/video/appinfo.json" then some [1]
  else if path = "/apps/bare/appinfo.json" then some [0]
  else if path = "/apps/blank/appinfo.json" then some []
  else none

/-- The heap before anything is allocated. -/
def emptyHeap : Heap := { contexts := [], components := [] }

/-- The heap and the object left by constructing the sample application `video`
as its link `0`, on the empty heap. -/
def sampleLink : Heap × ApplicationPrivate :=
  (heapAfter samplePlatform emptyHeap "video",
   ApplicationPrivate.readEntry samplePlatform
     { beforeLink samplePlatform emptyHeap "video" 0 sampleManifest with
       appInfoMap := entryInUse sampleManifest 0 })

/-- The heap and the object left by constructing the sample application `video`
as a top-level application, on the empty heap. -/
def sampleTop : Heap × ApplicationPrivate :=
  (heapAfter samplePlatform emptyHeap "video",
   ApplicationPrivate.readEntry samplePlatform
     (beforeLink samplePlatform emptyHeap "video" (-1) sampleManifest))

/-! ## Lemmas on maps and strings -/

theorem contains_cons (e : String × QVariant) (m : QVariantMap) (key : String) :
    QVariantMap.contains (e :: m) key = (e.1 == key || QVariantMap.contains m key) := by
  simp [QVariantMap.contains]

theorem value_cons (e : String × QVariant) (m : QVariantMap) (key : String) :
    QVariantMap.value (e :: m) key = if e.1 == key then e.2 else QVariantMap.value m key := by
  unfold QVariantMap.value
  rw [List.find?_cons]
  cases h : (e.1 == key) <;> simp

theorem value_of_not_contains (m : QVariantMap) (key : String)
    (h : QVariantMap.contains m key = false) : QVariantMap.value m key = QVariant.invalid := by
  induction m with
  | nil => rfl
  | cons e m ih =>
    rw [contains_cons] at h
    simp only [Bool.or_eq_false_iff] at h
    rw [value_cons, h.1]
    simpa using ih h.2

theorem subscript_fst (m : QVariantMap) (key : String) :
    (QVariantMap.subscript m key).1 = QVariantMap.value m key := by
  unfold QVariantMap.subscript
  cases h : QVariantMap.contains m key
  · simp [value_of_not_contains m key h]
  · simp

theorem value_subscript (m : QVariantMap) (key k : String) :
    QVariantMap.value (QVariantMap.subscript m key).2 k = QVariantMap.value m k := by
  unfold QVariantMap.subscript
  cases h : QVariantMap.contains m key
  · simp only [Bool.false_eq_true, if_false, value_cons]
    by_cases hk : (key == k) = true
    · have : key = k := by simpa using hk
      subst this
      simp [value_of_not_contains m key h]
    · simp [hk]
  · simp

theorem contains_subscript (m : QVariantMap) (key k : String) :
    QVariantMap.contains (QVariantMap.subscript m key).2 k =
      (key == k || QVariantMap.contains m k) := by
  unfold QVariantMap.subscript
  cases h : QVariantMap.contains m key
  · simp [contains_cons]
  · simp only [if_true]
    by_cases hk : (key == k) = true
    · have : key = k := by simpa using hk
      subst this
      simp [h]
    · simp [hk]

theorem folder_sep_ne_empty (a b : String) (c : Char) :
    a ++ String.singleton c ++ b ≠ "" := by
  intro h
  have := congrArg String.length h
  simp [String.length_append, String.length_singleton] at this

/-! ## Lemmas on link selection -/

theorem selectLink_top (P : Platform) (d : ApplicationPrivate) (hneg : d.appLinkId < 0) :
    ApplicationPrivate.selectLink P d = Outcome.ok d := by
  unfold ApplicationPrivate.selectLink
  rw [if_neg (by omega)]

theorem selectLink_link (P : Platform) (d : ApplicationPrivate) (h0 : 0 ≤ d.appLinkId)
    (hc : QVariantMap.contains d.appInfoMap "Links" = true)
    (hl : d.appLinkId < ((linksOf d.appInfoMap).length : Int)) :
    ApplicationPrivate.selectLink P d =
      Outcome.ok { d with appInfoMap := entryInUse d.appInfoMap d.appLinkId } := by
  have hn : d.appLinkId.toNat < (linksOf d.appInfoMap).length := by omega
  unfold ApplicationPrivate.selectLink
  simp only [if_pos h0, hc, subscript_fst, entryInUse]
  unfold linksOf at hl hn ⊢
  simp [hl, List.get?_eq_getElem?, List.getElem?_eq_getElem hn, List.getD_eq_getElem?_getD]

theorem selectLink_debug (P : Platform) (d : ApplicationPrivate) (h0 : 0 ≤ d.appLinkId)
    (hd : P.debug = true)
    (hbad : ¬ (QVariantMap.contains d.appInfoMap "Links" = true ∧
      d.appLinkId < ((linksOf d.appInfoMap).length : Int))) :
    ApplicationPrivate.selectLink P d =
      Outcome.assertFailed
        (if QVariantMap.contains d.appInfoMap "Links" then "links.count() > appLinkId"
         else "appInfoMap.contains(\"Links\")") := by
  unfold ApplicationPrivate.selectLink
  simp only [if_pos h0, hd, subscript_fst, Bool.true_and]
  cases hc : QVariantMap.contains d.appInfoMap "Links"
  · simp
  · have hl : ¬ d.appLinkId < ((linksOf d.appInfoMap).length : Int) := fun h => hbad ⟨hc, h⟩
    unfold linksOf at hl
    simp [hl]

theorem selectLink_release (P : Platform) (d : ApplicationPrivate) (h0 : 0 ≤ d.appLinkId)
    (hd : P.debug = false)
    (hbad : ¬ (QVariantMap.contains d.appInfoMap "Links" = true ∧
      d.appLinkId < ((linksOf d.appInfoMap).length : Int))) :
    ApplicationPrivate.selectLink P d = Outcome.undefined := by
  have hl : ¬ d.appLinkId < ((linksOf d.appInfoMap).length : Int) := by
    intro h
    cases hc : QVariantMap.contains d.appInfoMap "Links"
    · have hv := value_of_not_contains _ _ hc
      simp [linksOf, hv, QVariant.toList] at h
      omega
    · exact hbad ⟨hc, h⟩
  have hn : (linksOf d.appInfoMap).length ≤ d.appLinkId.toNat := by omega
  unfold ApplicationPrivate.selectLink
  simp only [if_pos h0, hd, subscript_fst, Bool.false_and]
  unfold linksOf at hn
  simp [List.get?_eq_getElem?, List.getElem?_eq_none hn]

/-! ## Lemmas on the reading of the entry in use -/

theorem readEntry_unchanged (P : Platform) (d : ApplicationPrivate) :
    (ApplicationPrivate.readEntry P d).appId = d.appId ∧
    (ApplicationPrivate.readEntry P d).appFolder = d.appFolder ∧
    (ApplicationPrivate.readEntry P d).appLinkId = d.appLinkId ∧
    (ApplicationPrivate.readEntry P d).category = d.category ∧
    (ApplicationPrivate.readEntry P d).widgetFileName = d.widgetFileName ∧
    (ApplicationPrivate.readEntry P d).context = d.context ∧
    (ApplicationPrivate.readEntry P d).widgetComponent = d.widgetComponent ∧
    (ApplicationPrivate.readEntry P d).contentComponent = d.contentComponent := by
  unfold ApplicationPrivate.readEntry
  simp only
  split_ifs <;> simp

theorem readEntry_name (P : Platform) (d : ApplicationPrivate) :
    (ApplicationPrivate.readEntry P d).name =
      QVariant.toString P (QVariantMap.value d.appInfoMap "Name") := by
  unfold ApplicationPrivate.readEntry
  simp only
  split_ifs <;> simp [subscript_fst, value_subscript]

theorem readEntry_contentFileName (P : Platform) (d : ApplicationPrivate) :
    (ApplicationPrivate.readEntry P d).contentFileName =
      if 0 ≤ d.appLinkId then QVariant.toString P (QVariantMap.value d.appInfoMap "Content")
      else "main.qml" := by
  unfold ApplicationPrivate.readEntry
  simp only
  split_ifs <;> simp [subscript_fst, value_subscript]

theorem isEmpty_eq_false (s : String) : s.isEmpty = false ↔ s ≠ "" := by
  rw [← Bool.not_eq_true, String.isEmpty_iff]

theorem readEntry_appIconPath (P : Platform) (d : ApplicationPrivate) :
    (ApplicationPrivate.readEntry P d).appIconPath =
      if QVariant.toString P (QVariantMap.value d.appInfoMap "Icon") = "" then d.appIconPath
      else d.appFolder ++ String.singleton P.separator ++
        QVariant.toString P (QVariantMap.value d.appInfoMap "Icon") := by
  unfold ApplicationPrivate.readEntry
  simp only
  split_ifs <;>
    simp_all [subscript_fst, value_subscript, String.isEmpty_iff, isEmpty_eq_false]

theorem readEntry_links (P : Platform) (d : ApplicationPrivate) :
    (ApplicationPrivate.readEntry P d).links =
      if QVariantMap.contains d.appInfoMap "Links" then linksOf d.appInfoMap else d.links := by
  unfold ApplicationPrivate.readEntry linksOf
  simp only
  split_ifs <;> simp_all [subscript_fst, value_subscript, contains_subscript]

theorem readEntry_value (P : Platform) (d : ApplicationPrivate) (k : String) :
    QVariantMap.value (ApplicationPrivate.readEntry P d).appInfoMap k =
      QVariantMap.value d.appInfoMap k := by
  unfold ApplicationPrivate.readEntry
  simp only
  split_ifs <;> simp [value_subscript]

theorem contains_subscript_iff (m : QVariantMap) (key k : String) :
    QVariantMap.contains (QVariantMap.subscript m key).2 k = true ↔
      (k = key ∨ QVariantMap.contains m k = true) := by
  rw [contains_subscript, Bool.or_eq_true, beq_iff_eq]
  exact or_congr eq_comm Iff.rfl

theorem readEntry_contains (P : Platform) (d : ApplicationPrivate) (k : String) :
    QVariantMap.contains (ApplicationPrivate.readEntry P d).appInfoMap k = true ↔
      (QVariantMap.contains d.appInfoMap k = true ∨ k = "Icon" ∨ k = "Name" ∨
        (0 ≤ d.appLinkId ∧ k = "Content")) := by
  unfold ApplicationPrivate.readEntry
  simp only
  by_cases hk : k = "Links"
  · subst hk
    split_ifs <;> simp_all [contains_subscript_iff]
  · split_ifs <;> simp_all [contains_subscript_iff, -not_le] <;> tauto

/-! ## The constructor in closed form -/

theorem ctor_unfold (P : Platform) (fs : FileSystem) (h : Heap) (ind : Int)
    (identifier : String) (linkId : Int) :
    Application.ctor P fs h ind identifier linkId =
      match fs (manifestPath P identifier) with
      | none => qFatal (toLatin1 ("Could not load Application Info for:" ++ identifier).toList)
      | some bytes =>
        match ApplicationPrivate.selectLink P
            (beforeLink P h identifier linkId (manifestOf P bytes)) with
        | Outcome.ok d =>
          match (ApplicationPrivate.readEntry P d).context with
          | none => Outcome.undefined
          | some c =>
            match (h.contexts ++ [QQmlContext.mk P.engine []]).get? c with
            | none => Outcome.undefined
            | some ctx =>
              Outcome.ok
                (Heap.mk
                  ((h.contexts ++ [QQmlContext.mk P.engine []]).set c
                    (QQmlContext.setContextProperty
                      (QQmlContext.setContextProperty ctx "context_AppId"
                        (QVariant.string identifier))
                      "context_AppPath"
                      (QVariant.string (ApplicationPrivate.readEntry P d).appFolder)))
                  h.components,
                 ApplicationPrivate.readEntry P d)
        | Outcome.fatal msg => Outcome.fatal msg
        | Outcome.assertFailed cond => Outcome.assertFailed cond
        | Outcome.undefined => Outcome.undefined := by
  unfold Application.ctor ApplicationPrivate.load ApplicationPrivate.prepareContext
    ApplicationPrivate.ctor
  simp only [Option.isSome_none, Bool.false_eq_true, if_false]
  show (match fs (manifestPath P identifier) with
    | some bytes => _
    | none => _) = _
  cases hf : fs (manifestPath P identifier) with
  | none => rfl
  | some bytes =>
    simp only [subscript_fst, value_subscript]
    show (match ApplicationPrivate.selectLink P
        (beforeLink P h identifier linkId (manifestOf P bytes)) with
      | Outcome.ok d => _
      | Outcome.fatal msg => _
      | Outcome.assertFailed cond => _
      | Outcome.undefined => _) = _
    cases hs : ApplicationPrivate.selectLink P
        (beforeLink P h identifier linkId (manifestOf P bytes)) with
    | ok d => rfl
    | fatal msg => rfl
    | assertFailed cond => rfl
    | undefined => rfl

theorem ctor_missing (P : Platform) (fs : FileSystem) (h : Heap) (ind : Int)
    (identifier : String) (linkId : Int) (hf : fs (manifestPath P identifier) = none) :
    Application.ctor P fs h ind identifier linkId =
      qFatal (toLatin1 ("Could not load Application Info for:" ++ identifier).toList) := by
  rw [ctor_unfold, hf]

theorem qFatal_ne_ok {α : Type} (format : List Char) (a : α) :
    (qFatal format : Outcome α) ≠ Outcome.ok a := by
  unfold qFatal
  intro hx
  split at hx <;> cases hx

theorem qFatal_fatal_iff {α : Type} (format : List Char) :
    (∃ msg, (qFatal format : Outcome α) = Outcome.fatal msg) ↔
      formatNoArgs false (cString format) ≠ none := by
  unfold qFatal
  cases hx : formatNoArgs false (cString format) with
  | none =>
    simp only [ne_eq, not_true_eq_false, iff_false]
    rintro ⟨msg, hm⟩
    cases hm
  | some text =>
    simp only [ne_eq, reduceCtorEq, not_false_eq_true, iff_true]
    exact ⟨_, rfl⟩

theorem ctor_finish (P : Platform) (fs : FileSystem) (h : Heap) (ind : Int)
    (identifier : String) (linkId : Int) (bytes : QByteArray) (d : ApplicationPrivate)
    (hf : fs (manifestPath P identifier) = some bytes)
    (hs : ApplicationPrivate.selectLink P
      (beforeLink P h identifier linkId (manifestOf P bytes)) = Outcome.ok d)
    (hc : d.context = some h.contexts.length) (ha : d.appFolder = appFolderOf P identifier) :
    Application.ctor P fs h ind identifier linkId =
      Outcome.ok (heapAfter P h identifier, ApplicationPrivate.readEntry P d) := by
  rw [ctor_unfold, hf]
  simp only [hs, (readEntry_unchanged P d).2.2.2.2.2.1, (readEntry_unchanged P d).2.1, hc, ha,
    List.get?_eq_getElem?, List.getElem?_concat_length]
  simp [heapAfter, contextAfter, QQmlContext.setContextProperty]

theorem ctor_top (P : Platform) (fs : FileSystem) (h : Heap) (ind : Int)
    (identifier : String) (linkId : Int) (bytes : QByteArray)
    (hf : fs (manifestPath P identifier) = some bytes) (hneg : linkId < 0) :
    Application.ctor P fs h ind identifier linkId =
      Outcome.ok (heapAfter P h identifier,
        ApplicationPrivate.readEntry P (beforeLink P h identifier linkId (manifestOf P bytes))) :=
  ctor_finish P fs h ind identifier linkId bytes _ hf (selectLink_top P _ hneg) rfl rfl

theorem beforeLink_contains_links (P : Platform) (h : Heap) (identifier : String)
    (linkId : Int) (m : QVariantMap) :
    QVariantMap.contains (beforeLink P h identifier linkId m).appInfoMap "Links" =
      QVariantMap.contains m "Links" := by
  simp [beforeLink, contains_subscript]

theorem beforeLink_linksOf (P : Platform) (h : Heap) (identifier : String)
    (linkId : Int) (m : QVariantMap) :
    linksOf (beforeLink P h identifier linkId m).appInfoMap = linksOf m := by
  simp [beforeLink, linksOf, value_subscript]

theorem beforeLink_entryInUse (P : Platform) (h : Heap) (identifier : String)
    (linkId k : Int) (m : QVariantMap) (h0 : 0 ≤ k) :
    entryInUse (beforeLink P h identifier linkId m).appInfoMap k = entryInUse m k := by
  unfold entryInUse
  rw [beforeLink_linksOf, if_pos h0, if_pos h0]

theorem ctor_link (P : Platform) (fs : FileSystem) (h : Heap) (ind : Int)
    (identifier : String) (linkId : Int) (bytes : QByteArray)
    (hf : fs (manifestPath P identifier) = some bytes) (h0 : 0 ≤ linkId)
    (hc : QVariantMap.contains (manifestOf P bytes) "Links" = true)
    (hl : linkId < ((linksOf (manifestOf P bytes)).length : Int)) :
    Application.ctor P fs h ind identifier linkId =
      Outcome.ok (heapAfter P h identifier,
        ApplicationPrivate.readEntry P
          { beforeLink P h identifier linkId (manifestOf P bytes) with
            appInfoMap := entryInUse (manifestOf P bytes) linkId }) := by
  have hs := selectLink_link P (beforeLink P h identifier linkId (manifestOf P bytes)) h0
    (by rw [beforeLink_contains_links]; exact hc)
    (by rw [beforeLink_linksOf]; exact hl)
  have he : entryInUse (beforeLink P h identifier linkId (manifestOf P bytes)).appInfoMap
      (beforeLink P h identifier linkId (manifestOf P bytes)).appLinkId =
      entryInUse (manifestOf P bytes) linkId :=
    beforeLink_entryInUse P h identifier linkId linkId _ h0
  rw [he] at hs
  exact ctor_finish P fs h ind identifier linkId bytes _ hf hs rfl rfl

theorem ctor_link_debug (P : Platform) (fs : FileSystem) (h : Heap) (ind : Int)
    (identifier : String) (linkId : Int) (bytes : QByteArray)
    (hf : fs (manifestPath P identifier) = some bytes) (h0 : 0 ≤ linkId)
    (hd : P.debug = true)
    (hbad : ¬ (QVariantMap.contains (manifestOf P bytes) "Links" = true ∧
      linkId < ((linksOf (manifestOf P bytes)).length : Int))) :
    Application.ctor P fs h ind identifier linkId =
      Outcome.assertFailed
        (if QVariantMap.contains (manifestOf P bytes) "Links" then "links.count() > appLinkId"
         else "appInfoMap.contains(\"Links\")") := by
  have hs := selectLink_debug P (beforeLink P h identifier linkId (manifestOf P bytes)) h0 hd
    (by rw [beforeLink_contains_links, beforeLink_linksOf]; exact hbad)
  rw [beforeLink_contains_links] at hs
  rw [ctor_unfold, hf]
  simp only [hs]

theorem ctor_link_release (P : Platform) (fs : FileSystem) (h : Heap) (ind : Int)
    (identifier : String) (linkId : Int) (bytes : QByteArray)
    (hf : fs (manifestPath P identifier) = some bytes) (h0 : 0 ≤ linkId)
    (hd : P.debug = false)
    (hbad : ¬ (QVariantMap.contains (manifestOf P bytes) "Links" = true ∧
      linkId < ((linksOf (manifestOf P bytes)).length : Int))) :
    Application.ctor P fs h ind identifier linkId = Outcome.undefined := by
  have hs := selectLink_release P (beforeLink P h identifier linkId (manifestOf P bytes)) h0 hd
    (by rw [beforeLink_contains_links, beforeLink_linksOf]; exact hbad)
  rw [ctor_unfold, hf]
  simp only [hs]

/-! ## What a successful construction establishes -/

theorem linksOf_of_not_contains (m : QVariantMap)
    (h : QVariantMap.contains m "Links" = false) : linksOf m = [] := by
  simp [linksOf, value_of_not_contains m "Links" h, QVariant.toList]

theorem contains_links_of_lt (m : QVariantMap) (k : Int) (h0 : 0 ≤ k)
    (hl : k < ((linksOf m).length : Int)) : QVariantMap.contains m "Links" = true := by
  cases hc : QVariantMap.contains m "Links"
  · rw [linksOf_of_not_contains m hc] at hl
    simp at hl
    omega
  · rfl

theorem loaded_readEntry (P : Platform) (h : Heap) (identifier : String) (linkId : Int)
    (m e : QVariantMap)
    (hv : ∀ key, QVariantMap.value e key = QVariantMap.value (entryInUse m linkId) key)
    (hk : ∀ key, QVariantMap.contains e key = true ↔
      (QVariantMap.contains (entryInUse m linkId) key = true ∨
        (linkId < 0 ∧ (key = "Category" ∨ key = "Widget"))))
    (hvalid : linkId < 0 ∨ linkId < ((linksOf m).length : Int)) :
    Loaded P h identifier linkId m (heapAfter P h identifier)
      (ApplicationPrivate.readEntry P
        { beforeLink P h identifier linkId m with appInfoMap := e }) := by
  have hu := readEntry_unchanged P { beforeLink P h identifier linkId m with appInfoMap := e }
  refine
    { heap := rfl, context := ?_, widgetComponent := ?_, contentComponent := ?_, appId := ?_,
      appLinkId := ?_, appFolder := ?_, category := ?_, widgetFileName := ?_, name := ?_,
      contentFileName := ?_, appIconPath := ?_, links := ?_, value := ?_, contains := ?_,
      valid := hvalid }
  · rw [hu.2.2.2.2.2.1]; rfl
  · rw [hu.2.2.2.2.2.2.1]; rfl
  · rw [hu.2.2.2.2.2.2.2]; rfl
  · rw [hu.1]; rfl
  · rw [hu.2.2.1]; rfl
  · rw [hu.2.1]; rfl
  · rw [hu.2.2.2.1]; rfl
  · rw [hu.2.2.2.2.1]; rfl
  · rw [readEntry_name]; simp only [hv]
  · rw [readEntry_contentFileName]; simp only [hv]; rfl
  · rw [readEntry_appIconPath]; simp only [hv]; rfl
  · rw [readEntry_links]
    simp only
    have hl : linksOf e = linksOf (entryInUse m linkId) := by simp [linksOf, hv]
    cases hc : QVariantMap.contains e "Links"
    · rw [← hl, linksOf_of_not_contains e hc]; rfl
    · simp [hl]
  · intro key; rw [readEntry_value]; exact hv key
  · intro key
    have hr : QVariantMap.contains (ApplicationPrivate.readEntry P
        { beforeLink P h identifier linkId m with appInfoMap := e }).appInfoMap key = true ↔
        (QVariantMap.contains e key = true ∨ key = "Icon" ∨ key = "Name" ∨
          (0 ≤ linkId ∧ key = "Content")) := readEntry_contains P _ key
    rw [hr, hk]
    constructor
    · rintro ((hx | hx) | hx | hx | hx)
      · exact Or.inl hx
      · exact Or.inr (Or.inr (Or.inr (Or.inr hx)))
      · exact Or.inr (Or.inl hx)
      · exact Or.inr (Or.inr (Or.inl hx))
      · exact Or.inr (Or.inr (Or.inr (Or.inl hx)))
    · rintro (hx | hx | hx | hx | hx)
      · exact Or.inl (Or.inl hx)
      · exact Or.inr (Or.inl hx)
      · exact Or.inr (Or.inr (Or.inl hx))
      · exact Or.inr (Or.inr (Or.inr hx))
      · exact Or.inl (Or.inr hx)

theorem ctor_loaded (P : Platform) (fs : FileSystem) (h : Heap) (ind : Int)
    (identifier : String) (linkId : Int) (bytes : QByteArray) (h1 : Heap)
    (d : ApplicationPrivate)
    (hf : fs (manifestPath P identifier) = some bytes)
    (hc : Application.ctor P fs h ind identifier linkId = Outcome.ok (h1, d)) :
    Loaded P h identifier linkId (manifestOf P bytes) h1 d := by
  by_cases hneg : linkId < 0
  · rw [ctor_top P fs h ind identifier linkId bytes hf hneg] at hc
    injection hc with hc
    injection hc with hh hd
    subst hh hd
    have hne : ¬ 0 ≤ linkId := by omega
    refine loaded_readEntry P h identifier linkId (manifestOf P bytes) _ ?_ ?_ (Or.inl hneg)
    · intro key
      simp [beforeLink, value_subscript, entryInUse, hne]
    · intro key
      simp only [beforeLink, contains_subscript_iff, entryInUse, if_neg hne]
      tauto
  · have h0 : 0 ≤ linkId := by omega
    by_cases hl : linkId < ((linksOf (manifestOf P bytes)).length : Int)
    · have hk := contains_links_of_lt _ _ h0 hl
      rw [ctor_link P fs h ind identifier linkId bytes hf h0 hk hl] at hc
      injection hc with hc
      injection hc with hh hd
      subst hh hd
      refine loaded_readEntry P h identifier linkId (manifestOf P bytes) _ ?_ ?_ (Or.inr hl)
      · intro key; rfl
      · intro key; constructor
        · intro hx; exact Or.inl hx
        · rintro (hx | hx)
          · exact hx
          · omega
    · exfalso
      have hbad : ¬ (QVariantMap.contains (manifestOf P bytes) "Links" = true ∧
          linkId < ((linksOf (manifestOf P bytes)).length : Int)) := fun hx => hl hx.2
      cases hd : P.debug
      · rw [ctor_link_release P fs h ind identifier linkId bytes hf h0 hd hbad] at hc
        cases hc
      · rw [ctor_link_debug P fs h ind identifier linkId bytes hf h0 hd hbad] at hc
        cases hc

theorem ctor_ok_opened (P : Platform) (fs : FileSystem) (h : Heap) (ind : Int)
    (identifier : String) (linkId : Int) (h1 : Heap) (d : ApplicationPrivate)
    (hc : Application.ctor P fs h ind identifier linkId = Outcome.ok (h1, d)) :
    ∃ bytes, fs (manifestPath P identifier) = some bytes := by
  cases hf : fs (manifestPath P identifier) with
  | none =>
    rw [ctor_missing P fs h ind identifier linkId hf] at hc
    exact absurd hc (qFatal_ne_ok _ _)
  | some bytes => exact ⟨bytes, rfl⟩

/-! ## Lemmas on the component accessors -/

theorem contentComponent_fresh (P : Platform) (h : Heap) (d : ApplicationPrivate)
    (hn : d.contentComponent = none) :
    Application.contentComponent P h d =
      (some h.components.length,
       { h with components := h.components ++
          [{ engine := P.engine,
             fileName := d.appFolder ++ String.singleton P.separator ++ d.contentFileName,
             mode := CompilationMode.Asynchronous }] },
       { d with contentComponent := some h.components.length }) := by
  simp [Application.contentComponent, ApplicationPrivate.prepareContentComponent, hn]

theorem contentComponent_cached (P : Platform) (h : Heap) (d : ApplicationPrivate) (p : Nat)
    (hp : d.contentComponent = some p) :
    Application.contentComponent P h d = (some p, h, d) := by
  simp [Application.contentComponent, hp]

theorem callContent_cached (P : Platform) (n : Nat) (h : Heap) (d : ApplicationPrivate)
    (p : Nat) (hp : d.contentComponent = some p) :
    callContent P n h d = (List.replicate n (some p), h, d) := by
  induction n with
  | zero => rfl
  | succ n ih =>
    unfold callContent
    simp only [contentComponent_cached P h d p hp, ih, List.replicate_succ]

theorem callContent_fresh (P : Platform) (n : Nat) (h : Heap) (d : ApplicationPrivate)
    (hn : d.contentComponent = none) :
    callContent P (n + 1) h d =
      (List.replicate (n + 1) (some h.components.length),
       { h with components := h.components ++
          [{ engine := P.engine,
             fileName := d.appFolder ++ String.singleton P.separator ++ d.contentFileName,
             mode := CompilationMode.Asynchronous }] },
       { d with contentComponent := some h.components.length }) := by
  unfold callContent
  simp only [contentComponent_fresh P h d hn]
  rw [callContent_cached P n _ _ h.components.length rfl]
  rfl

theorem widgetComponent_fresh (P : Platform) (h : Heap) (d : ApplicationPrivate)
    (hn : d.widgetComponent = none) (hw : d.widgetFileName ≠ "") :
    Application.widgetComponent P h d =
      (some h.components.length,
       { h with components := h.components ++
          [{ engine := P.engine,
             fileName := d.appFolder ++ String.singleton P.separator ++ d.widgetFileName,
             mode := CompilationMode.Asynchronous }] },
       { d with widgetComponent := some h.components.length }) := by
  have he : d.widgetFileName.isEmpty = false := (isEmpty_eq_false _).2 hw
  simp [Application.widgetComponent, ApplicationPrivate.prepareWidgetComponent, hn, he]

theorem widgetComponent_empty (P : Platform) (h : Heap) (d : ApplicationPrivate)
    (hn : d.widgetComponent = none) (hw : d.widgetFileName = "") :
    Application.widgetComponent P h d = (none, h, d) := by
  have he : d.widgetFileName.isEmpty = true := (String.isEmpty_iff _).2 hw
  simp [Application.widgetComponent, ApplicationPrivate.prepareWidgetComponent, hn, he]

theorem widgetComponent_cached (P : Platform) (h : Heap) (d : ApplicationPrivate) (p : Nat)
    (hp : d.widgetComponent = some p) :
    Application.widgetComponent P h d = (some p, h, d) := by
  simp [Application.widgetComponent, hp]

theorem callWidget_cached (P : Platform) (n : Nat) (h : Heap) (d : ApplicationPrivate)
    (p : Nat) (hp : d.widgetComponent = some p) :
    callWidget P n h d = (List.replicate n (some p), h, d) := by
  induction n with
  | zero => rfl
  | succ n ih =>
    unfold callWidget
    simp only [widgetComponent_cached P h d p hp, ih, List.replicate_succ]

theorem callWidget_empty (P : Platform) (n : Nat) (h : Heap) (d : ApplicationPrivate)
    (hn : d.widgetComponent = none) (hw : d.widgetFileName = "") :
    callWidget P n h d = (List.replicate n none, h, d) := by
  induction n with
  | zero => rfl
  | succ n ih =>
    unfold callWidget
    simp only [widgetComponent_empty P h d hn hw, ih, List.replicate_succ]

theorem callWidget_fresh (P : Platform) (n : Nat) (h : Heap) (d : ApplicationPrivate)
    (hn : d.widgetComponent = none) (hw : d.widgetFileName ≠ "") :
    callWidget P (n + 1) h d =
      (List.replicate (n + 1) (some h.components.length),
       { h with components := h.components ++
          [{ engine := P.engine,
             fileName := d.appFolder ++ String.singleton P.separator ++ d.widgetFileName,
             mode := CompilationMode.Asynchronous }] },
       { d with widgetComponent := some h.components.length }) := by
  unfold callWidget
  simp only [widgetComponent_fresh P h d hn hw]
  rw [callWidget_cached P n _ _ h.components.length rfl]
  rfl

/-! ## Lemmas on `load` and on the sample data -/

theorem load_missing (P : Platform) (fs : FileSystem) (h : Heap) (d : ApplicationPrivate)
    (identifier : String) (hf : fs (manifestPath P identifier) = none) :
    ApplicationPrivate.load P fs h d identifier =
      qFatal (toLatin1 ("Could not load Application Info for:" ++ identifier).toList) := by
  have hp : P.appsDir ++ String.singleton P.separator ++ identifier ++
      String.singleton P.separator ++ "appinfo.json" = manifestPath P identifier := rfl
  unfold ApplicationPrivate.load
  simp only [hp, hf]

theorem load_opened_not_fatal (P : Platform) (fs : FileSystem) (h : Heap)
    (d : ApplicationPrivate) (identifier : String) (bytes : QByteArray) (msg : String)
    (hneg : d.appLinkId < 0) (hf : fs (manifestPath P identifier) = some bytes) :
    ApplicationPrivate.load P fs h d identifier ≠ Outcome.fatal msg := by
  have hp : P.appsDir ++ String.singleton P.separator ++ identifier ++
      String.singleton P.separator ++ "appinfo.json" = manifestPath P identifier := rfl
  unfold ApplicationPrivate.load
  simp only [hp, hf]
  intro hm
  split at hm
  · split at hm
    · cases hm
    · split at hm <;> cases hm
  all_goals (rename_i heq; simp [selectLink_top, hneg] at heq)

theorem sample_video_opens :
    sampleFs (manifestPath samplePlatform "video") = some [1] := by decide

theorem sample_link_ctor :
    Application.ctor samplePlatform sampleFs emptyHeap 0 "video" 0 =
      Outcome.ok (sampleLink.1, sampleLink.2) :=
  ctor_link samplePlatform sampleFs emptyHeap 0 "video" 0 [1] sample_video_opens
    (by decide) (by decide) (by decide)

theorem sample_top_ctor :
    Application.ctor samplePlatform sampleFs emptyHeap 0 "video" (-1) =
      Outcome.ok (sampleTop.1, sampleTop.2) :=
  ctor_top samplePlatform sampleFs emptyHeap 0 "video" (-1) [1] sample_video_opens (by decide)

/-! ## C1: the fatal abort -/

theorem sample_percent_missing :
    sampleFs (manifestPath samplePlatform "%s") = none := by decide

/-- For a top-level application (`linkId < 0`): the constructor, and `load` on
every object with such a link id, end in the fatal abort of `qFatal` only if the
manifest file cannot be opened; when it cannot, they end in that abort if the
message of line 104, read as a printf format, reads no argument, and in
undefined behaviour if it does.  A manifest that opens never aborts:
construction returns; and when the manifest is empty or malformed (the parser
gives the null document) or is an object without keys, the application has the
identifier as id, the empty string as name, category, widget file name and icon,
and no links, as read from an empty map. -/
theorem top_level_outcomes (P : Platform) (fs : FileSystem) (h : Heap)
    (ind : Int) (identifier : String) (linkId : Int) (hneg : linkId < 0) :
    ((∃ msg, Application.ctor P fs h ind identifier linkId = Outcome.fatal msg) →
        fs (manifestPath P identifier) = none) ∧
    (fs (manifestPath P identifier) = none →
      ((∃ msg, Application.ctor P fs h ind identifier linkId = Outcome.fatal msg) ↔
        formatNoArgs false (fatalFormat identifier) ≠ none) ∧
      (formatNoArgs false (fatalFormat identifier) = none →
        Application.ctor P fs h ind identifier linkId = Outcome.undefined)) ∧
    (∀ d0 : ApplicationPrivate, d0.appLinkId = linkId →
      ((∃ msg, ApplicationPrivate.load P fs h d0 identifier = Outcome.fatal msg) ↔
        (fs (manifestPath P identifier) = none ∧
          formatNoArgs false (fatalFormat identifier) ≠ none))) ∧
    (∀ bytes, fs (manifestPath P identifier) = some bytes →
      ∃ h1 d, Application.ctor P fs h ind identifier linkId = Outcome.ok (h1, d)) ∧
    (∀ bytes, fs (manifestPath P identifier) = some bytes →
      (P.fromJson bytes = QJsonDocument.null ∨ P.fromJson bytes = QJsonDocument.object []) →
      ∃ h1 d, Application.ctor P fs h ind identifier linkId = Outcome.ok (h1, d) ∧
        Application.id d = identifier ∧ Application.name d = "" ∧
        Application.category d = "" ∧ d.widgetFileName = "" ∧ Application.icon d = "" ∧
        Application.links d = []) := by
  refine ⟨?_, ?_, ?_, ?_, ?_⟩
  · rintro ⟨msg, hm⟩
    cases hf : fs (manifestPath P identifier) with
    | none => rfl
    | some bytes =>
      rw [ctor_top P fs h ind identifier linkId bytes hf hneg] at hm
      cases hm
  · intro hf
    rw [ctor_missing P fs h ind identifier linkId hf]
    refine ⟨qFatal_fatal_iff _, ?_⟩
    intro hn
    unfold qFatal
    have hn1 : formatNoArgs false
        (cString (toLatin1 ("Could not load Application Info for:" ++ identifier).toList)) =
        none := hn
    rw [hn1]
  · intro d0 hd
    cases hf : fs (manifestPath P identifier) with
    | none =>
      rw [load_missing P fs h d0 identifier hf]
      constructor
      · intro hx
        exact ⟨rfl, (qFatal_fatal_iff _).1 hx⟩
      · intro hx
        exact (qFatal_fatal_iff _).2 hx.2
    | some bytes =>
      constructor
      · rintro ⟨msg, hm⟩
        exact absurd hm (load_opened_not_fatal P fs h d0 identifier bytes msg (by omega) hf)
      · intro hx
        cases hx.1
  · intro bytes hf
    exact ⟨_, _, ctor_top P fs h ind identifier linkId bytes hf hneg⟩
  · intro bytes hf hdoc
    have hc := ctor_top P fs h ind identifier linkId bytes hf hneg
    have hL := ctor_loaded P fs h ind identifier linkId bytes _ _ hf hc
    have hm : manifestOf P bytes = [] := by
      rcases hdoc with hx | hx <;> simp [manifestOf, hx, QJsonDocument.objectMap]
    have he : entryInUse (manifestOf P bytes) linkId = [] := by
      rw [hm]
      simp [entryInUse, show ¬ 0 ≤ linkId by omega]
    refine ⟨_, _, hc, hL.appId, ?_, ?_, ?_, ?_, ?_⟩
    · show ApplicationPrivate.name _ = ""
      rw [hL.name, he]; rfl
    · show ApplicationPrivate.category _ = ""
      rw [hL.category, hm]; rfl
    · rw [hL.widgetFileName, hm]; rfl
    · show ApplicationPrivate.appIconPath _ = ""
      rw [hL.appIconPath, he]; rfl
    · show ApplicationPrivate.links _ = []
      rw [hL.links, he]; rfl

/-- C1, at the failing input: the identifier `%s` has no manifest in the sample
file system, so line 104 is reached with the message
`Could not load Application Info for:%s`.  The message is the printf format of
`qFatal` and no argument is passed: its `%s` reads an argument that is not
there, and the top-level constructor ends in undefined behaviour, not in the
fatal abort the claim states for every identifier. -/
theorem C1_failing_input :
    sampleFs (manifestPath samplePlatform "%s") = none ∧
    fatalFormat "%s" = "Could not load Application Info for:%s".toList ∧
    formatNoArgs false (fatalFormat "%s") = none ∧
    Application.ctor samplePlatform sampleFs emptyHeap 0 "%s" (-1) = Outcome.undefined ∧
    ¬ ∃ msg, Application.ctor samplePlatform sampleFs emptyHeap 0 "%s" (-1) =
        Outcome.fatal msg := by
  have hc : Application.ctor samplePlatform sampleFs emptyHeap 0 "%s" (-1) =
      Outcome.undefined := by
    rw [ctor_missing samplePlatform sampleFs emptyHeap 0 "%s" (-1) sample_percent_missing]
    rfl
  refine ⟨sample_percent_missing, by decide, by decide, hc, ?_⟩
  rintro ⟨msg, hm⟩
  rw [hc] at hm
  cases hm

/-! ## C2: components are built lazily and once -/

/-- C2: after a successful construction no component has been built; after `n`
calls of `contentComponent()` exactly `min n 1` components have been added to the
heap, and all `n` calls returned the same pointer, the address of that one
component; the same holds for `widgetComponent()` when the widget file name is
not empty. -/
theorem C2_components_built_once (P : Platform) (fs : FileSystem) (h : Heap) (ind : Int)
    (identifier : String) (linkId : Int) (h1 : Heap) (d : ApplicationPrivate) (n : Nat)
    (hc : Application.ctor P fs h ind identifier linkId = Outcome.ok (h1, d)) :
    h1.components = h.components ∧
    (callContent P n h1 d).2.1.components.length = h.components.length + min n 1 ∧
    (callContent P n h1 d).1 = List.replicate n (some h.components.length) ∧
    (d.widgetFileName ≠ "" →
      (callWidget P n h1 d).2.1.components.length = h.components.length + min n 1 ∧
      (callWidget P n h1 d).1 = List.replicate n (some h.components.length)) := by
  obtain ⟨bytes, hf⟩ := ctor_ok_opened P fs h ind identifier linkId h1 d hc
  have hL := ctor_loaded P fs h ind identifier linkId bytes h1 d hf hc
  have hh : h1.components = h.components := by rw [hL.heap]; rfl
  refine ⟨hh, ?_, ?_, ?_⟩
  · cases n with
    | zero => simp [callContent, hh]
    | succ n => rw [callContent_fresh P n h1 d hL.contentComponent]; simp [hh]
  · cases n with
    | zero => simp [callContent]
    | succ n => rw [callContent_fresh P n h1 d hL.contentComponent, hh]
  · intro hw
    cases n with
    | zero => simp [callWidget, hh]
    | succ n =>
      rw [callWidget_fresh P n h1 d hL.widgetComponent hw]
      simp [hh]

theorem C2_witness :
    Application.ctor samplePlatform sampleFs emptyHeap 0 "video" 0 =
      Outcome.ok (sampleLink.1, sampleLink.2) ∧
    (callContent samplePlatform 3 sampleLink.1 sampleLink.2).2.1.components.length =
      emptyHeap.components.length + min 3 1 ∧
    (callContent samplePlatform 3 sampleLink.1 sampleLink.2).1 =
      List.replicate 3 (some emptyHeap.components.length) :=
  ⟨sample_link_ctor,
   (C2_components_built_once samplePlatform sampleFs emptyHeap 0 "video" 0 sampleLink.1
      sampleLink.2 3 sample_link_ctor).2.1,
   (C2_components_built_once samplePlatform sampleFs emptyHeap 0 "video" 0 sampleLink.1
      sampleLink.2 3 sample_link_ctor).2.2.1⟩

/-! ## C3: the context properties -/

/-- C3: after a successful construction, whatever the link id and the manifest,
the context of the application binds `context_AppId` to the identifier passed to
the constructor and `context_AppPath` to the folder
`appsDir + separator + identifier`. -/
theorem C3_context_properties (P : Platform) (fs : FileSystem) (h : Heap) (ind : Int)
    (identifier : String) (linkId : Int) (h1 : Heap) (d : ApplicationPrivate)
    (hc : Application.ctor P fs h ind identifier linkId = Outcome.ok (h1, d)) :
    ∃ c ctx, Application.context d = some c ∧ h1.contexts.get? c = some ctx ∧
      QQmlContext.contextProperty ctx "context_AppId" = some (QVariant.string identifier) ∧
      QQmlContext.contextProperty ctx "context_AppPath" =
        some (QVariant.string (P.appsDir ++ String.singleton P.separator ++ identifier)) := by
  obtain ⟨bytes, hf⟩ := ctor_ok_opened P fs h ind identifier linkId h1 d hc
  have hL := ctor_loaded P fs h ind identifier linkId bytes h1 d hf hc
  refine ⟨h.contexts.length, contextAfter P identifier, hL.context, ?_, ?_, ?_⟩
  · rw [hL.heap]
    simp [heapAfter, List.get?_eq_getElem?]
  · simp [QQmlContext.contextProperty, contextAfter]
  · simp [QQmlContext.contextProperty, contextAfter, appFolderOf]

theorem C3_witness :
    Application.ctor samplePlatform sampleFs emptyHeap 0 "video" 0 =
      Outcome.ok (sampleLink.1, sampleLink.2) ∧
    ∃ c ctx, Application.context sampleLink.2 = some c ∧
      sampleLink.1.contexts.get? c = some ctx ∧
      QQmlContext.contextProperty ctx "context_AppId" = some (QVariant.string "video") ∧
      QQmlContext.contextProperty ctx "context_AppPath" =
        some (QVariant.string
          (samplePlatform.appsDir ++ String.singleton samplePlatform.separator ++ "video")) :=
  ⟨sample_link_ctor,
   C3_context_properties samplePlatform sampleFs emptyHeap 0 "video" 0 sampleLink.1
     sampleLink.2 sample_link_ctor⟩

/-! ## C4: a link shares the folder of its parent -/

/-- C4, as amended: when the `"Links"` list of the manifest has more than `k`
entries, `k ≥ 0`, the application built with link id `k` has the same `id()`,
folder, `category()` and widget file name as the one built from the same
identifier with a negative link id; its `name()` and content file name are the
`"Name"` and `"Content"` strings of entry `k`; its `toVariantMap()` holds every
key of entry `k`, gives the value of entry `k` under every key, and is the same
map as entry `k` when that entry has the keys `"Icon"`, `"Name"` and
`"Content"`. -/
theorem C4_link_shares_folder (P : Platform) (fs : FileSystem) (h ha : Heap) (ind inda : Int)
    (identifier : String) (k j : Int) (bytes : QByteArray)
    (hf : fs (manifestPath P identifier) = some bytes) (h0 : 0 ≤ k)
    (hl : k < ((linksOf (manifestOf P bytes)).length : Int)) (hj : j < 0) :
    ∃ h1 d1 h2 d2,
      Application.ctor P fs h ind identifier k = Outcome.ok (h1, d1) ∧
      Application.ctor P fs ha inda identifier j = Outcome.ok (h2, d2) ∧
      Application.id d1 = Application.id d2 ∧ d1.appFolder = d2.appFolder ∧
      Application.category d1 = Application.category d2 ∧
      d1.widgetFileName = d2.widgetFileName ∧
      Application.name d1 =
        QVariant.toString P (QVariantMap.value (entryInUse (manifestOf P bytes) k) "Name") ∧
      d1.contentFileName =
        QVariant.toString P (QVariantMap.value (entryInUse (manifestOf P bytes) k) "Content") ∧
      (∀ key, QVariantMap.value (Application.toVariantMap d1) key =
        QVariantMap.value (entryInUse (manifestOf P bytes) k) key) ∧
      (∀ key, QVariantMap.contains (entryInUse (manifestOf P bytes) k) key = true →
        QVariantMap.contains (Application.toVariantMap d1) key = true) ∧
      (QVariantMap.contains (entryInUse (manifestOf P bytes) k) "Icon" = true →
        QVariantMap.contains (entryInUse (manifestOf P bytes) k) "Name" = true →
        QVariantMap.contains (entryInUse (manifestOf P bytes) k) "Content" = true →
        QVariantMap.Same (Application.toVariantMap d1) (entryInUse (manifestOf P bytes) k)) := by
  have hc1 := ctor_link P fs h ind identifier k bytes hf h0 (contains_links_of_lt _ _ h0 hl) hl
  have hc2 := ctor_top P fs ha inda identifier j bytes hf hj
  have hL1 := ctor_loaded P fs h ind identifier k bytes _ _ hf hc1
  have hL2 := ctor_loaded P fs ha inda identifier j bytes _ _ hf hc2
  refine ⟨_, _, _, _, hc1, hc2, ?_, ?_, ?_, ?_, hL1.name, ?_, hL1.value, ?_, ?_⟩
  · exact hL1.appId.trans hL2.appId.symm
  · exact hL1.appFolder.trans hL2.appFolder.symm
  · exact hL1.category.trans hL2.category.symm
  · exact hL1.widgetFileName.trans hL2.widgetFileName.symm
  · rw [hL1.contentFileName, if_pos h0]
  · intro key hk
    exact (hL1.contains key).2 (Or.inl hk)
  · intro hi hn hct key
    refine ⟨?_, hL1.value key⟩
    cases hk : QVariantMap.contains (entryInUse (manifestOf P bytes) k) key
    · cases hx : QVariantMap.contains (Application.toVariantMap
        (ApplicationPrivate.readEntry P
          { beforeLink P h identifier k (manifestOf P bytes) with
            appInfoMap := entryInUse (manifestOf P bytes) k })) key
      · rfl
      · exfalso
        rcases (hL1.contains key).1 hx with hy | hy | hy | hy | hy
        · rw [hk] at hy; cases hy
        · rw [hy, hi] at hk; cases hk
        · rw [hy, hn] at hk; cases hk
        · rw [hy.2, hct] at hk; cases hk
        · omega
    · exact (hL1.contains key).2 (Or.inl hk)

theorem C4_witness :
    sampleFs (manifestPath samplePlatform "video") = some [1] ∧
    (0 : Int) < ((linksOf (manifestOf samplePlatform [1])).length : Int) ∧
    ∃ h1 d1 h2 d2,
      Application.ctor samplePlatform sampleFs emptyHeap 0 "video" 0 = Outcome.ok (h1, d1) ∧
      Application.ctor samplePlatform sampleFs emptyHeap 0 "video" (-1) = Outcome.ok (h2, d2) ∧
      Application.id d1 = Application.id d2 ∧ d1.appFolder = d2.appFolder ∧
      Application.category d1 = Application.category d2 ∧
      d1.widgetFileName = d2.widgetFileName :=
  ⟨sample_video_opens, by decide,
   let ⟨h1, d1, h2, d2, c1, c2, e1, e2, e3, e4, _⟩ :=
     C4_link_shares_folder samplePlatform sampleFs emptyHeap emptyHeap 0 0 "video" 0 (-1) [1]
       sample_video_opens (by decide) (by decide) (by decide)
   ⟨h1, d1, h2, d2, c1, c2, e1, e2, e3, e4⟩⟩

/-- C4 as stated fails: link `1` of the sample manifest has the keys `"Name"` and
`"Content"` only, and the map of the application built from it also holds
`"Icon"`, which the read `appInfoMap["Icon"]` of line 95 has inserted; it is not
the map of the entry. -/
theorem C4_counterexample :
    sampleFs (manifestPath samplePlatform "video") = some [1] ∧
    entryInUse (manifestOf samplePlatform [1]) 1 =
      [("Name", QVariant.string "Series"), ("Content", QVariant.string "series.qml")] ∧
    ∃ h1 d, Application.ctor samplePlatform sampleFs emptyHeap 0 "video" 1 = Outcome.ok (h1, d) ∧
      QVariantMap.contains (Application.toVariantMap d) "Icon" = true ∧
      QVariantMap.contains (entryInUse (manifestOf samplePlatform [1]) 1) "Icon" = false ∧
      ¬ QVariantMap.Same (Application.toVariantMap d)
          (entryInUse (manifestOf samplePlatform [1]) 1) := by
  have hc := ctor_link samplePlatform sampleFs emptyHeap 0 "video" 1 [1] sample_video_opens
    (by decide) (by decide) (by decide)
  have hn : QVariantMap.contains (Application.toVariantMap
      (ApplicationPrivate.readEntry samplePlatform
        { beforeLink samplePlatform emptyHeap "video" 1 (manifestOf samplePlatform [1]) with
          appInfoMap := entryInUse (manifestOf samplePlatform [1]) 1 })) "Icon" = true :=
    (readEntry_contains samplePlatform _ "Icon").2 (Or.inr (Or.inl rfl))
  have he : QVariantMap.contains (entryInUse (manifestOf samplePlatform [1]) 1) "Icon" =
      false := by decide
  refine ⟨sample_video_opens, rfl, _, _, hc, hn, he, ?_⟩
  intro hs
  have h1 := (hs "Icon").1
  rw [hn, he] at h1
  cases h1

/-! ## C5: the accessors of a top-level application -/

theorem sample_bare_opens :
    sampleFs (manifestPath samplePlatform "bare") = some [0] := by decide

/-- C5, as amended: for a top-level application (`linkId < 0`) whose manifest
opens and parses to the JSON object `m`, construction returns, `id()` is the
identifier passed in, `name()`, `category()` and the widget file name are the
strings under `"Name"`, `"Category"` and `"Widget"` (the string itself for a
string value), each empty when its key is absent; `toVariantMap()` holds every
key of `m`, gives the value of `m` under every key, and is the same map as `m`
when `m` has the keys `"Category"`, `"Widget"`, `"Icon"` and `"Name"`. -/
theorem C5_top_level_accessors (P : Platform) (fs : FileSystem) (h : Heap) (ind : Int)
    (identifier : String) (linkId : Int) (bytes : QByteArray) (m : QVariantMap)
    (hf : fs (manifestPath P identifier) = some bytes)
    (hp : P.fromJson bytes = QJsonDocument.object m) (hneg : linkId < 0) :
    ∃ h1 d, Application.ctor P fs h ind identifier linkId = Outcome.ok (h1, d) ∧
      Application.id d = identifier ∧
      Application.name d = QVariant.toString P (QVariantMap.value m "Name") ∧
      Application.category d = QVariant.toString P (QVariantMap.value m "Category") ∧
      d.widgetFileName = QVariant.toString P (QVariantMap.value m "Widget") ∧
      (∀ key s, QVariantMap.value m key = QVariant.string s →
        QVariant.toString P (QVariantMap.value m key) = s) ∧
      (∀ key, QVariantMap.contains m key = false →
        QVariant.toString P (QVariantMap.value m key) = "") ∧
      (∀ key, QVariantMap.value (Application.toVariantMap d) key = QVariantMap.value m key) ∧
      (∀ key, QVariantMap.contains m key = true →
        QVariantMap.contains (Application.toVariantMap d) key = true) ∧
      (QVariantMap.contains m "Category" = true → QVariantMap.contains m "Widget" = true →
        QVariantMap.contains m "Icon" = true → QVariantMap.contains m "Name" = true →
        QVariantMap.Same (Application.toVariantMap d) m) := by
  have hm : manifestOf P bytes = m := by simp [manifestOf, hp, QJsonDocument.objectMap]
  subst hm
  have hne : ¬ 0 ≤ linkId := by omega
  have he : entryInUse (manifestOf P bytes) linkId = manifestOf P bytes := if_neg hne
  have hc := ctor_top P fs h ind identifier linkId bytes hf hneg
  have hL := ctor_loaded P fs h ind identifier linkId bytes _ _ hf hc
  have hval := hL.value
  have hcon := hL.contains
  have hname := hL.name
  rw [he] at hval hcon hname
  refine ⟨heapAfter P h identifier,
    ApplicationPrivate.readEntry P (beforeLink P h identifier linkId (manifestOf P bytes)),
    hc, hL.appId, hname, hL.category, hL.widgetFileName, ?_, ?_, hval, ?_, ?_⟩
  · intro key s hs
    rw [hs]; rfl
  · intro key hk
    rw [value_of_not_contains _ key hk]; rfl
  · intro key hk
    exact (hcon key).2 (Or.inl hk)
  · intro h1 h2 h3 h4 key
    refine ⟨?_, hval key⟩
    cases hk : QVariantMap.contains (manifestOf P bytes) key
    · cases hx : QVariantMap.contains (Application.toVariantMap
        (ApplicationPrivate.readEntry P (beforeLink P h identifier linkId (manifestOf P bytes))))
        key
      · rfl
      · exfalso
        rcases (hcon key).1 hx with hy | hy | hy | hy | hy
        · rw [hk] at hy; cases hy
        · rw [hy, h3] at hk; cases hk
        · rw [hy, h4] at hk; cases hk
        · omega
        · rcases hy.2 with hz | hz
          · rw [hz, h1] at hk; cases hk
          · rw [hz, h2] at hk; cases hk
    · exact (hcon key).2 (Or.inl hk)

theorem C5_witness :
    sampleFs (manifestPath samplePlatform "video") = some [1] ∧
    samplePlatform.fromJson [1] = QJsonDocument.object sampleManifest ∧
    ((-1 : Int) < 0) ∧
    ∃ h1 d, Application.ctor samplePlatform sampleFs emptyHeap 0 "video" (-1) =
        Outcome.ok (h1, d) ∧
      Application.id d = "video" ∧
      Application.name d =
        QVariant.toString samplePlatform (QVariantMap.value sampleManifest "Name") :=
  ⟨sample_video_opens, rfl, by decide,
   let ⟨h1, d, c, e1, e2, _⟩ :=
     C5_top_level_accessors samplePlatform sampleFs emptyHeap 0 "video" (-1) [1] sampleManifest
       sample_video_opens rfl (by decide)
   ⟨h1, d, c, e1, e2⟩⟩

/-- C5 as stated fails: the manifest `bare` is the empty JSON object, and the map
of the top-level application built from it holds `"Name"` (with `"Category"`,
`"Widget"` and `"Icon"`), which the read `appInfoMap["Name"]` of line 101 has
inserted; it is not the manifest object. -/
theorem C5_counterexample :
    sampleFs (manifestPath samplePlatform "bare") = some [0] ∧
    samplePlatform.fromJson [0] = QJsonDocument.object [] ∧
    ∃ h1 d, Application.ctor samplePlatform sampleFs emptyHeap 0 "bare" (-1) =
        Outcome.ok (h1, d) ∧
      QVariantMap.contains (Application.toVariantMap d) "Name" = true ∧
      ¬ QVariantMap.Same (Application.toVariantMap d) [] := by
  have hc := ctor_top samplePlatform sampleFs emptyHeap 0 "bare" (-1) [0] sample_bare_opens
    (by decide)
  have hn : QVariantMap.contains (Application.toVariantMap
      (ApplicationPrivate.readEntry samplePlatform
        (beforeLink samplePlatform emptyHeap "bare" (-1) (manifestOf samplePlatform [0]))))
      "Name" = true :=
    (readEntry_contains samplePlatform _ "Name").2 (Or.inr (Or.inr (Or.inl rfl)))
  refine ⟨sample_bare_opens, rfl, _, _, hc, hn, ?_⟩
  intro hs
  have h1 := (hs "Name").1
  rw [hn] at h1
  revert h1
  decide

/-! ## C6: the file of the content view -/

/-- C6, as amended: after a successful construction `contentComponent()` returns
the address of a component whose file is the application folder + separator +
the `"Content"` string of entry `linkId` of `"Links"` when `linkId ≥ 0`, and the
application folder + separator + `"main.qml"` when `linkId < 0`, whatever the
manifest holds under `"Content"`. -/
theorem C6_content_path (P : Platform) (fs : FileSystem) (h : Heap) (ind : Int)
    (identifier : String) (linkId : Int) (bytes : QByteArray) (h1 : Heap)
    (d : ApplicationPrivate)
    (hf : fs (manifestPath P identifier) = some bytes)
    (hc : Application.ctor P fs h ind identifier linkId = Outcome.ok (h1, d)) :
    ∃ p c, (Application.contentComponent P h1 d).1 = some p ∧
      (Application.contentComponent P h1 d).2.1.components.get? p = some c ∧
      c.fileName = appFolderOf P identifier ++ String.singleton P.separator ++
        (if 0 ≤ linkId then
          QVariant.toString P
            (QVariantMap.value (entryInUse (manifestOf P bytes) linkId) "Content")
         else "main.qml") := by
  have hL := ctor_loaded P fs h ind identifier linkId bytes h1 d hf hc
  refine ⟨h1.components.length,
    { engine := P.engine,
      fileName := d.appFolder ++ String.singleton P.separator ++ d.contentFileName,
      mode := CompilationMode.Asynchronous }, ?_, ?_, ?_⟩
  · rw [contentComponent_fresh P h1 d hL.contentComponent]
  · rw [contentComponent_fresh P h1 d hL.contentComponent]
    simp only [List.get?_eq_getElem?, List.getElem?_concat_length]
  · simp only [hL.appFolder, hL.contentFileName]

theorem C6_witness :
    sampleFs (manifestPath samplePlatform "video") = some [1] ∧
    Application.ctor samplePlatform sampleFs emptyHeap 0 "video" 0 =
      Outcome.ok (sampleLink.1, sampleLink.2) ∧
    ∃ p c, (Application.contentComponent samplePlatform sampleLink.1 sampleLink.2).1 = some p ∧
      (Application.contentComponent samplePlatform sampleLink.1
        sampleLink.2).2.1.components.get? p = some c ∧
      c.fileName = appFolderOf samplePlatform "video" ++
        String.singleton samplePlatform.separator ++
        (if (0 : Int) ≤ 0 then
          QVariant.toString samplePlatform
            (QVariantMap.value (entryInUse (manifestOf samplePlatform [1]) 0) "Content")
         else "main.qml") :=
  ⟨sample_video_opens, sample_link_ctor,
   C6_content_path samplePlatform sampleFs emptyHeap 0 "video" 0 [1] sampleLink.1 sampleLink.2
     sample_video_opens sample_link_ctor⟩

/-- C6 as stated fails for a top-level application: the sample manifest names
`start.qml` under `"Content"`, and the content component of the application
built with link id `-1` is given `/apps/video/main.qml`. -/
theorem C6_counterexample :
    sampleFs (manifestPath samplePlatform "video") = some [1] ∧
    QVariant.toString samplePlatform
      (QVariantMap.value (entryInUse (manifestOf samplePlatform [1]) (-1)) "Content") =
        "start.qml" ∧
    Application.ctor samplePlatform sampleFs emptyHeap 0 "video" (-1) =
      Outcome.ok (sampleTop.1, sampleTop.2) ∧
    (Application.contentComponent samplePlatform sampleTop.1 sampleTop.2).2.1.components =
      [{ engine := 1, fileName := "/apps/video/main.qml",
         mode := CompilationMode.Asynchronous }] ∧
    "/apps/video/main.qml" ≠ appFolderOf samplePlatform "video" ++
      String.singleton samplePlatform.separator ++ "start.qml" :=
  ⟨sample_video_opens, by decide, sample_top_ctor, by decide, by decide⟩

/-! ## C7: the icon -/

/-- C7: after a successful construction `icon()` is the empty string if and only
if the `"Icon"` string of the manifest entry in use (the manifest when
`linkId < 0`, entry `linkId` of `"Links"` otherwise) is empty, which it is when
the entry has no `"Icon"` key; otherwise `icon()` is the application folder +
separator + that string.  The icon of a link depends on the entry of the link
and on the folder only. -/
theorem C7_icon_path (P : Platform) (fs : FileSystem) (h : Heap) (ind : Int)
    (identifier : String) (linkId : Int) (bytes : QByteArray) (h1 : Heap)
    (d : ApplicationPrivate)
    (hf : fs (manifestPath P identifier) = some bytes)
    (hc : Application.ctor P fs h ind identifier linkId = Outcome.ok (h1, d)) :
    (Application.icon d = "" ↔
      QVariant.toString P
        (QVariantMap.value (entryInUse (manifestOf P bytes) linkId) "Icon") = "") ∧
    (QVariantMap.contains (entryInUse (manifestOf P bytes) linkId) "Icon" = false →
      Application.icon d = "") ∧
    (QVariant.toString P
        (QVariantMap.value (entryInUse (manifestOf P bytes) linkId) "Icon") ≠ "" →
      Application.icon d = appFolderOf P identifier ++ String.singleton P.separator ++
        QVariant.toString P
          (QVariantMap.value (entryInUse (manifestOf P bytes) linkId) "Icon")) := by
  have hL := ctor_loaded P fs h ind identifier linkId bytes h1 d hf hc
  have hi : Application.icon d = d.appIconPath := rfl
  rw [hi, hL.appIconPath]
  refine ⟨?_, ?_, ?_⟩
  · by_cases he : QVariant.toString P
        (QVariantMap.value (entryInUse (manifestOf P bytes) linkId) "Icon") = ""
    · simp [he]
    · simp only [if_neg he, he, iff_false]
      exact folder_sep_ne_empty _ _ _
  · intro hk
    rw [value_of_not_contains _ _ hk]
    simp [QVariant.toString]
  · intro he
    rw [if_neg he]

theorem C7_witness :
    sampleFs (manifestPath samplePlatform "video") = some [1] ∧
    Application.ctor samplePlatform sampleFs emptyHeap 0 "video" 0 =
      Outcome.ok (sampleLink.1, sampleLink.2) ∧
    (Application.icon sampleLink.2 = "" ↔
      QVariant.toString samplePlatform
        (QVariantMap.value (entryInUse (manifestOf samplePlatform [1]) 0) "Icon") = "") :=
  ⟨sample_video_opens, sample_link_ctor,
   (C7_icon_path samplePlatform sampleFs emptyHeap 0 "video" 0 [1] sampleLink.1 sampleLink.2
      sample_video_opens sample_link_ctor).1⟩

/-! ## C8: the links -/

/-- C8: after a successful construction `links()` is the `"Links"` list of the
manifest entry in use.  For a top-level application it is the `"Links"` list of
the manifest, the same entries in the same order, and the empty list when the
manifest has no `"Links"` key; for a link it is the `"Links"` list nested in
entry `linkId`, empty when that entry has none, whatever the `"Links"` list of
the manifest is. -/
theorem C8_links_of_entry (P : Platform) (fs : FileSystem) (h : Heap) (ind : Int)
    (identifier : String) (linkId : Int) (bytes : QByteArray) (h1 : Heap)
    (d : ApplicationPrivate)
    (hf : fs (manifestPath P identifier) = some bytes)
    (hc : Application.ctor P fs h ind identifier linkId = Outcome.ok (h1, d)) :
    Application.links d = linksOf (entryInUse (manifestOf P bytes) linkId) ∧
    (∀ xs, QVariantMap.value (entryInUse (manifestOf P bytes) linkId) "Links" =
        QVariant.list xs → Application.links d = xs) ∧
    (QVariantMap.contains (entryInUse (manifestOf P bytes) linkId) "Links" = false →
      Application.links d = []) ∧
    (linkId < 0 → Application.links d = linksOf (manifestOf P bytes) ∧
      (Application.links d).length = (linksOf (manifestOf P bytes)).length) ∧
    (0 ≤ linkId → Application.links d =
      linksOf (QVariant.toMap
        ((linksOf (manifestOf P bytes)).getD linkId.toNat QVariant.invalid))) := by
  have hL := ctor_loaded P fs h ind identifier linkId bytes h1 d hf hc
  have hl : Application.links d = linksOf (entryInUse (manifestOf P bytes) linkId) := hL.links
  refine ⟨hl, ?_, ?_, ?_, ?_⟩
  · intro xs hx
    rw [hl, linksOf, hx]; rfl
  · intro hk
    rw [hl, linksOf_of_not_contains _ hk]
  · intro hneg
    have he : entryInUse (manifestOf P bytes) linkId = manifestOf P bytes :=
      if_neg (by omega)
    rw [hl, he]
    exact ⟨rfl, rfl⟩
  · intro h0
    have he : entryInUse (manifestOf P bytes) linkId =
        QVariant.toMap ((linksOf (manifestOf P bytes)).getD linkId.toNat QVariant.invalid) :=
      if_pos h0
    rw [hl, he]

theorem C8_witness :
    sampleFs (manifestPath samplePlatform "video") = some [1] ∧
    Application.ctor samplePlatform sampleFs emptyHeap 0 "video" (-1) =
      Outcome.ok (sampleTop.1, sampleTop.2) ∧
    Application.links sampleTop.2 =
      linksOf (entryInUse (manifestOf samplePlatform [1]) (-1)) :=
  ⟨sample_video_opens, sample_top_ctor,
   (C8_links_of_entry samplePlatform sampleFs emptyHeap 0 "video" (-1) [1] sampleTop.1
      sampleTop.2 sample_video_opens sample_top_ctor).1⟩

/-! ## C9: the precondition of the link lookup -/

/-- C9: for a manifest that opens and a link id `≥ 0`, construction gets past
both assertions and the indexed read `links.at(linkId)` if and only if the
manifest has a `"Links"` key whose list has more than `linkId` entries; otherwise
a debug build stops at the first assertion that is false (the first when the key
is absent, the second when the list is too short) and a release build reads the
list out of range.  For a link id `< 0` construction returns whatever the
manifest holds. -/
theorem C9_link_lookup_precondition (P : Platform) (fs : FileSystem) (h : Heap) (ind : Int)
    (identifier : String) (linkId : Int) (bytes : QByteArray)
    (hf : fs (manifestPath P identifier) = some bytes) :
    (0 ≤ linkId →
      ((∃ h1 d, Application.ctor P fs h ind identifier linkId = Outcome.ok (h1, d)) ↔
        (QVariantMap.contains (manifestOf P bytes) "Links" = true ∧
          linkId < ((linksOf (manifestOf P bytes)).length : Int))) ∧
      (¬ (QVariantMap.contains (manifestOf P bytes) "Links" = true ∧
          linkId < ((linksOf (manifestOf P bytes)).length : Int)) →
        Application.ctor P fs h ind identifier linkId =
          if P.debug then
            Outcome.assertFailed
              (if QVariantMap.contains (manifestOf P bytes) "Links" then
                "links.count() > appLinkId"
               else "appInfoMap.contains(\"Links\")")
          else Outcome.undefined)) ∧
    (linkId < 0 →
      ∃ h1 d, Application.ctor P fs h ind identifier linkId = Outcome.ok (h1, d)) := by
  refine ⟨fun h0 => ?_, fun hneg => ⟨_, _, ctor_top P fs h ind identifier linkId bytes hf hneg⟩⟩
  have hbad : ¬ (QVariantMap.contains (manifestOf P bytes) "Links" = true ∧
      linkId < ((linksOf (manifestOf P bytes)).length : Int)) →
      Application.ctor P fs h ind identifier linkId =
        if P.debug then
          Outcome.assertFailed
            (if QVariantMap.contains (manifestOf P bytes) "Links" then
              "links.count() > appLinkId"
             else "appInfoMap.contains(\"Links\")")
        else Outcome.undefined := by
    intro hn
    cases hd : P.debug
    · rw [ctor_link_release P fs h ind identifier linkId bytes hf h0 hd hn]; rfl
    · rw [ctor_link_debug P fs h ind identifier linkId bytes hf h0 hd hn]; rfl
  refine ⟨⟨?_, ?_⟩, hbad⟩
  · rintro ⟨h1, d, hc⟩
    by_contra hn
    rw [hbad hn] at hc
    cases hd : P.debug <;> rw [hd] at hc <;> cases hc
  · rintro ⟨hk, hl⟩
    exact ⟨_, _, ctor_link P fs h ind identifier linkId bytes hf h0 hk hl⟩

theorem C9_witness :
    sampleFs (manifestPath samplePlatform "video") = some [1] ∧
    ((0 : Int) ≤ 2 →
      ((∃ h1 d, Application.ctor samplePlatform sampleFs emptyHeap 0 "video" 2 =
          Outcome.ok (h1, d)) ↔
        (QVariantMap.contains (manifestOf samplePlatform [1]) "Links" = true ∧
          (2 : Int) < ((linksOf (manifestOf samplePlatform [1])).length : Int))) ∧
      (¬ (QVariantMap.contains (manifestOf samplePlatform [1]) "Links" = true ∧
          (2 : Int) < ((linksOf (manifestOf samplePlatform [1])).length : Int)) →
        Application.ctor samplePlatform sampleFs emptyHeap 0 "video" 2 =
          if samplePlatform.debug then
            Outcome.assertFailed
              (if QVariantMap.contains (manifestOf samplePlatform [1]) "Links" then
                "links.count() > appLinkId"
               else "appInfoMap.contains(\"Links\")")
          else Outcome.undefined)) :=
  ⟨sample_video_opens,
   (C9_link_lookup_precondition samplePlatform sampleFs emptyHeap 0 "video" 2 [1]
      sample_video_opens).1⟩

/-! ## C10: an empty file name -/

/-- C10: after a successful construction, `widgetComponent()` returns null on
every call and builds nothing, however often it is called, if and only if the
`"Widget"` string of the top-level manifest is empty, which it is when the key
is absent; `contentComponent()` never returns null: its first call builds a
component for the application folder + separator + content file name, also when
the content file name is empty, as it is for a link entry without `"Content"`. -/
theorem C10_empty_file_names (P : Platform) (fs : FileSystem) (h : Heap) (ind : Int)
    (identifier : String) (linkId : Int) (bytes : QByteArray) (h1 : Heap)
    (d : ApplicationPrivate)
    (hf : fs (manifestPath P identifier) = some bytes)
    (hc : Application.ctor P fs h ind identifier linkId = Outcome.ok (h1, d)) :
    ((∀ n, (callWidget P n h1 d).1 = List.replicate n none ∧
        (callWidget P n h1 d).2.1 = h1) ↔
      QVariant.toString P (QVariantMap.value (manifestOf P bytes) "Widget") = "") ∧
    (QVariantMap.contains (manifestOf P bytes) "Widget" = false →
      QVariant.toString P (QVariantMap.value (manifestOf P bytes) "Widget") = "") ∧
    (∀ n, ∀ p ∈ (callContent P n h1 d).1, p = some h1.components.length) ∧
    (Application.contentComponent P h1 d).1 = some h1.components.length ∧
    (Application.contentComponent P h1 d).2.1.components = h1.components ++
      [{ engine := P.engine,
         fileName := appFolderOf P identifier ++ String.singleton P.separator ++
           d.contentFileName,
         mode := CompilationMode.Asynchronous }] ∧
    (0 ≤ linkId →
      QVariantMap.contains (entryInUse (manifestOf P bytes) linkId) "Content" = false →
      d.contentFileName = "") := by
  have hL := ctor_loaded P fs h ind identifier linkId bytes h1 d hf hc
  refine ⟨⟨?_, ?_⟩, ?_, ?_, ?_, ?_, ?_⟩
  · intro hall
    by_contra hw
    have hw1 : d.widgetFileName ≠ "" := by rw [hL.widgetFileName]; exact hw
    have h1n := (hall 1).1
    rw [callWidget_fresh P 0 h1 d hL.widgetComponent hw1] at h1n
    simp at h1n
  · intro hw n
    have hw1 : d.widgetFileName = "" := by rw [hL.widgetFileName]; exact hw
    rw [callWidget_empty P n h1 d hL.widgetComponent hw1]
    exact ⟨rfl, rfl⟩
  · intro hk
    rw [value_of_not_contains _ _ hk]; rfl
  · intro n p hp
    cases n with
    | zero => simp [callContent] at hp
    | succ n =>
      rw [callContent_fresh P n h1 d hL.contentComponent] at hp
      exact (List.mem_replicate.1 hp).2
  · rw [contentComponent_fresh P h1 d hL.contentComponent]
  · rw [contentComponent_fresh P h1 d hL.contentComponent, hL.appFolder]
  · intro h0 hk
    rw [hL.contentFileName, if_pos h0, value_of_not_contains _ _ hk]; rfl

theorem C10_witness :
    sampleFs (manifestPath samplePlatform "video") = some [1] ∧
    Application.ctor samplePlatform sampleFs emptyHeap 0 "video" 0 =
      Outcome.ok (sampleLink.1, sampleLink.2) ∧
    ((∀ n, (callWidget samplePlatform n sampleLink.1 sampleLink.2).1 = List.replicate n none ∧
        (callWidget samplePlatform n sampleLink.1 sampleLink.2).2.1 = sampleLink.1) ↔
      QVariant.toString samplePlatform
        (QVariantMap.value (manifestOf samplePlatform [1]) "Widget") = "") ∧
    (Application.contentComponent samplePlatform sampleLink.1 sampleLink.2).1 =
      some sampleLink.1.components.length :=
  ⟨sample_video_opens, sample_link_ctor,
   (C10_empty_file_names samplePlatform sampleFs emptyHeap 0 "video" 0 [1] sampleLink.1
      sampleLink.2 sample_video_opens sample_link_ctor).1,
   (C10_empty_file_names samplePlatform sampleFs emptyHeap 0 "video" 0 [1] sampleLink.1
      sampleLink.2 sample_video_opens sample_link_ctor).2.2.2.1⟩

end SmartTV
